import Mathlib

/-!
Verification of the moozhak CLI core: settings schema and session flags,
quick-set and interactive settings paths, the input tokenizer, the command
registry and dispatcher, the tracks argument parser and handler, and the
ReccoBeats combined track-plus-features fetch.

Shallow embedding conventions: JavaScript strings are Lean `String`s
manipulated through their character lists; `parseInt(v, 10)` is modelled by
`jsParseInt` returning `Option Int` (`none` models `NaN`); `null`-able
JavaScript values are `Option`s; the side effects that the claims mention
(persistent-log writes, file writes, fetches) are recorded in explicit
result structures.
-/

namespace Moozhak

/-- Whitespace test used for JS `trim`, `\s` in the tokenizer regex, and the
leading-whitespace skip of `parseInt`. -/
def wsChar (c : Char) : Bool :=
  c = ' ' || c = '\t' || c = '\n' || c = '\r' || c = '\x0b' || c = '\x0c'

/-- Model of JS `toLowerCase` (ASCII range, which is all the repository uses). -/
def lowerStr (s : String) : String :=
  ⟨s.data.map Char.toLower⟩

/-- Drop leading and trailing whitespace from a character list (JS `trim`). -/
def trimChars (cs : List Char) : List Char :=
  ((cs.dropWhile wsChar).reverse.dropWhile wsChar).reverse

/-- Model of JS `String.prototype.trim`. -/
def jsTrim (s : String) : String :=
  ⟨trimChars s.data⟩

/-- Decimal digit test. -/
def isDigitCh (c : Char) : Bool :=
  48 ≤ c.toNat && c.toNat ≤ 57

/-- Numeric value of a decimal digit list, most significant first. -/
def digitsVal (ds : List Char) : Nat :=
  ds.foldl (fun a c => a * 10 + (c.toNat - 48)) 0

/-- Parse a maximal leading run of decimal digits; `none` when the run is
empty (which in JS makes `parseInt` return `NaN`). -/
def parseLeadingDigits (cs : List Char) : Option Nat :=
  let ds := cs.takeWhile isDigitCh
  if ds = [] then none else some (digitsVal ds)

/-- Model of JS `parseInt(s, 10)`: skip leading whitespace, read an optional
sign, then a maximal run of decimal digits, ignoring any trailing junk
(so a string like `15abc` parses to `15`); `none` models `NaN`. The digit
value is kept as an exact integer; JS stores it as an IEEE-754 double, which
rounds above 2^53 — the NaN-versus-number and sign distinctions the claims
rely on are preserved by that rounding, and the one claim sensitive to the
double's string form (the per-page round trip) is settled against the
exponential-notation threshold modelled in `renderInt`. -/
def jsParseInt (s : String) : Option Int :=
  match s.data.dropWhile wsChar with
  | [] => none
  | c :: rest =>
    if c = '-' then (parseLeadingDigits rest).map (fun n => -(n : Int))
    else if c = '+' then (parseLeadingDigits rest).map (fun n => (n : Int))
    else (parseLeadingDigits (c :: rest)).map (fun n => (n : Int))

/-- Valid search types for Discogs. -/
def VALID_TYPES : List String := ["artist", "release", "master", "label"]

/-- Valid output formats for tracks. -/
def VALID_OUTPUT_FORMATS : List String := ["human", "csv", "pipe", "markdown"]

/-- `type` entry, validate: `(v) => !v || v === 'none' || v === 'all' ||
VALID_TYPES.includes(v)`. -/
def typeValidate (v : String) : Bool :=
  v = "" || v = "none" || v = "all" || VALID_TYPES.contains v

/-- `type` entry, transform: `(v) => (!v || v === 'none' || v === 'all') ?
null : v.toLowerCase()`. -/
def typeTransform (v : String) : Option String :=
  if v = "" || v = "none" || v = "all" then none else some (lowerStr v)

/-- `type` entry, format: `(v) => v || 'none (all)'`. -/
def typeFormat (v : Option String) : String :=
  match v with
  | some s => if s = "" then "none (all)" else s
  | none => "none (all)"

/-- `per_page` entry, validate: `(v) => !isNaN(parseInt(v, 10)) &&
parseInt(v, 10) > 0`. -/
def perPageValidate (v : String) : Bool :=
  match jsParseInt v with
  | some n => decide (0 < n)
  | none => false

/-- `per_page` entry, transform: `(v) => parseInt(v, 10)`; `none` models `NaN`. -/
def perPageTransform (v : String) : Option Int :=
  jsParseInt v

/-- `tracks_type` entry, validate: `(v) => ['master', 'release'].includes(v)`. -/
def tracksTypeValidate (v : String) : Bool :=
  (["master", "release"] : List String).contains v

/-- `tracks_output` entry, validate: `(v) => VALID_OUTPUT_FORMATS.includes(v)`. -/
def tracksOutputValidate (v : String) : Bool :=
  VALID_OUTPUT_FORMATS.contains v

/-- A JavaScript value reaching the verbose transform: either a string (the
quick-set path) or a boolean (the interactive choices carry `true`/`false`). -/
inductive JsVal where
  | str (s : String)
  | jsBool (b : Bool)
deriving DecidableEq

/-- `verbose` entry, validate: `() => true`. -/
def verboseValidate (_ : JsVal) : Bool :=
  true

/-- `verbose` entry, transform: `(v) => v === 'on' || v === 'true' || v === true`. -/
def verboseTransform : JsVal → Bool
  | .str s => s = "on" || s = "true"
  | .jsBool b => b

/-- `verbose` entry, format: `(v) => v ? 'on' : 'off'`. -/
def verboseFormat (v : Bool) : String :=
  if v then "on" else "off"

/-! ## Session flags record -/

/-- The mutable Session Flags record, with the typed values produced by the
schema transforms (`none` in `per_page` models a `NaN` number). -/
structure SessionFlags where
  type : Option String
  per_page : Option Int
  tracks_type : String
  tracks_output : String
  verbose : Bool
deriving DecidableEq

/-- Default session flags (type unset, five results per page, master source,
human output, verbose off). -/
def defaultFlags : SessionFlags :=
  { type := none, per_page := some 5, tracks_type := "master",
    tracks_output := "human", verbose := false }

/-- Typed-value validity for the `type` field: the schema validator applied to
the stored value (a `null` value is accepted since `!v` is true). -/
def typeValueValid : Option String → Bool
  | none => true
  | some s => typeValidate s

/-- Typed-value validity for the `per_page` field: positive number, `NaN` fails. -/
def perPageValueValid : Option Int → Bool
  | some n => decide (0 < n)
  | none => false

/-- Every field of the Session Flags record passes its own schema validator
(the verbose validator accepts anything, so that field needs no test). -/
def flagsValid (f : SessionFlags) : Bool :=
  typeValueValid f.type && perPageValueValid f.per_page &&
    tracksTypeValidate f.tracks_type && tracksOutputValidate f.tracks_output

/-! ## Quick-set path (handleSet) -/

/-- The five settings keys of SETTINGS_SCHEMA. -/
inductive SettingKey where
  | type
  | per_page
  | tracks_type
  | tracks_output
  | verbose
deriving DecidableEq

/-- `SETTINGS_SCHEMA[key]` lookup (own properties of the schema object). -/
def keyOf (s : String) : Option SettingKey :=
  if s = "type" then some .type
  else if s = "per_page" then some .per_page
  else if s = "tracks_type" then some .tracks_type
  else if s = "tracks_output" then some .tracks_output
  else if s = "verbose" then some .verbose
  else none

/-- `schema.validate(val)` for a given key. -/
def validateOf (k : SettingKey) (val : String) : Bool :=
  match k with
  | .type => typeValidate val
  | .per_page => perPageValidate val
  | .tracks_type => tracksTypeValidate val
  | .tracks_output => tracksOutputValidate val
  | .verbose => verboseValidate (.str val)

/-- `sessionFlags[key] = schema.transform(val)` for a given key. -/
def applyTransform (k : SettingKey) (val : String) (f : SessionFlags) : SessionFlags :=
  match k with
  | .type => { f with type := typeTransform val }
  | .per_page => { f with per_page := perPageTransform val }
  | .tracks_type => { f with tracks_type := lowerStr val }
  | .tracks_output => { f with tracks_output := lowerStr val }
  | .verbose => { f with verbose := verboseTransform (.str val) }

/-- How one call of `handleSet` ended. -/
inductive SetOutcome where
  | showed
  | unknownOption
  | missingValue
  | rejected
  | updated (k : SettingKey)
deriving DecidableEq

/-- Result of one `handleSet` call: the flags record after the call, the
branch taken, and whether `writeLog` ran (the persistent session log). -/
structure SetResult where
  flags : SessionFlags
  outcome : SetOutcome
  wroteLog : Bool
deriving DecidableEq

/-- Model of `handleSet(args, sessionFlags)`: show settings when no (or a
falsy empty) option is given, reject unknown options, missing values and
values failing the key validator without touching the record or the log,
otherwise lower-case the value, transform it and assign, then write the log. -/
def handleSet (args : List String) (f : SessionFlags) : SetResult :=
  match args with
  | [] => ⟨f, .showed, false⟩
  | option :: rest =>
    if option = "" then ⟨f, .showed, false⟩
    else
      match keyOf (lowerStr option) with
      | none => ⟨f, .unknownOption, false⟩
      | some k =>
        match rest with
        | [] => ⟨f, .missingValue, false⟩
        | value :: _ =>
          let val := lowerStr value
          if validateOf k val then ⟨applyTransform k val f, .updated k, true⟩
          else ⟨f, .rejected, false⟩

/-! ## Interactive settings menu (handleSettings) -/

/-- The `choices` list of the `type` schema entry. -/
def typeChoices : List (Option String) :=
  [none, some "artist", some "release", some "master", some "label"]

/-- The `choices` list of the `tracks_type` schema entry. -/
def tracksTypeChoices : List String := ["master", "release"]

/-- The `choices` list of the `tracks_output` schema entry. -/
def tracksOutputChoices : List String := ["human", "csv", "pipe", "markdown"]

/-- The `choices` list of the `verbose` schema entry. -/
def verboseChoices : List Bool := [false, true]

/-- One completed interaction of the settings menu: for keys with `choices`
the user picks a typed value from the list; `per_page` (the one schema entry
without choices) goes through free text input instead. -/
inductive MenuChoice where
  | chooseType (v : Option String)
  | enterPerPage (raw : String)
  | chooseTracksType (v : String)
  | chooseTracksOutput (v : String)
  | chooseVerbose (v : Bool)
deriving DecidableEq

/-- What the inquirer prompts guarantee about the committed value: a select
answer is one of the schema choices, and a text answer passed
`schema.validate` (inquirer re-prompts until the validator succeeds). -/
def menuChoiceOk : MenuChoice → Bool
  | .chooseType v => typeChoices.contains v
  | .enterPerPage raw => perPageValidate raw
  | .chooseTracksType v => tracksTypeChoices.contains v
  | .chooseTracksOutput v => tracksOutputChoices.contains v
  | .chooseVerbose _ => true

/-- Model of the assignment performed by `handleSettings`: a select answer is
stored as is (`sessionFlags[setting] = newValue`), a text answer is stored
transformed (`sessionFlags[setting] = schema.transform(newValue)`). -/
def handleSettingsModel (c : MenuChoice) (f : SessionFlags) : SessionFlags :=
  match c with
  | .chooseType v => { f with type := v }
  | .enterPerPage raw => { f with per_page := perPageTransform raw }
  | .chooseTracksType v => { f with tracks_type := v }
  | .chooseTracksOutput v => { f with tracks_output := v }
  | .chooseVerbose v => { f with verbose := v }

/-! ## Input tokenizer (parseInput) -/

/-- A character the regex piece `[^\s"]+` accepts: not whitespace and not a
double quote. -/
def isTokChar (c : Char) : Bool :=
  !(wsChar c) && c != '"'

/-- One greedy match of the alternation `[^\s"]+|"[^"]*"` at the head of the
input: a maximal run of plain token characters, or a double-quoted span
running to the first closing quote. Returns the matched characters and the
remainder, or `none` when neither branch matches here. -/
def matchPiece (cs : List Char) : Option (List Char × List Char) :=
  match cs with
  | [] => none
  | c :: rest =>
    if isTokChar c then
      some ((c :: rest).takeWhile isTokChar, (c :: rest).dropWhile isTokChar)
    else if c = '"' then
      if rest.contains '"' then
        some ('"' :: rest.takeWhile (fun x => x != '"') ++ ['"'],
              (rest.dropWhile (fun x => x != '"')).tail)
      else none
    else none

/-- Greedy repetition `(?:[^\s"]+|"[^"]*")+` at the head of the input:
concatenate pieces while they match. Fuel-based; each piece consumes at
least one character, so fuel equal to the input length suffices. -/
def pieces : Nat → List Char → List Char × List Char
  | 0, cs => ([], cs)
  | fuel + 1, cs =>
    match matchPiece cs with
    | none => ([], cs)
    | some (p, rest) =>
      let pr := pieces fuel rest
      (p ++ pr.1, pr.2)

/-- Global scan of `trimmed.match(/(?:[^\s"]+|"[^"]*")+/g)`: at each position
either emit the greedy match starting there or skip one character. -/
def scanAux : Nat → List Char → List (List Char)
  | 0, _ => []
  | fuel + 1, cs =>
    match cs with
    | [] => []
    | _ :: tl =>
      match matchPiece cs with
      | none => scanAux fuel tl
      | some _ =>
        let pr := pieces cs.length cs
        pr.1 :: scanAux fuel pr.2

/-- All regex matches of the token pattern over the input. -/
def scanTokens (cs : List Char) : List (List Char) :=
  scanAux (cs.length + 1) cs

/-- Model of `arg.replace(/^"|"$/g, '')`: drop one leading and one trailing
double quote when present. -/
def stripQuotes (t : List Char) : List Char :=
  let t1 := match t with
    | '"' :: rest => rest
    | _ => t
  match t1.getLast? with
  | some '"' => t1.dropLast
  | _ => t1

/-- Model of `parseInput(input)`: trim, return an empty command for blank
input, otherwise tokenize respecting quoted spans, lower-case the first
token as the command and strip quotes from the remaining tokens. -/
def parseInput (s : String) : String × List String :=
  if trimChars s.data = [] then ("", [])
  else
    (match scanTokens (trimChars s.data) with
      | [] => ""
      | p :: _ => lowerStr ⟨p⟩,
     ((scanTokens (trimChars s.data)).drop 1).map (fun p => (⟨stripQuotes p⟩ : String)))

/-- A token the spec describes as plain: nonempty, no whitespace, no quote. -/
def isUnquotedTok (t : List Char) : Bool :=
  !t.isEmpty && t.all isTokChar

/-- A token the spec describes as a double-quoted span: an opening quote,
quote-free content (which may contain whitespace), and a closing quote. -/
def isQuotedTok (t : List Char) : Bool :=
  match t with
  | [] => false
  | c :: rest =>
    c = '"' &&
      (match rest.getLast? with
       | some c2 => c2 = '"' && rest.dropLast.all (fun x => x != '"')
       | none => false)

/-- A well-formed token of an input line: plain or quoted. -/
def wfTok (t : List Char) : Bool :=
  isUnquotedTok t || isQuotedTok t

/-- Join tokens with single spaces into one input line. -/
def joinTok : List (List Char) → List Char
  | [] => []
  | [t] => t
  | t :: u :: rest => t ++ ' ' :: joinTok (u :: rest)

/-- What can follow a token in a joined line: the end of input or a space. -/
def tailOk (tail : List Char) : Prop :=
  tail = [] ∨ ∃ m, tail = ' ' :: m

/-! ## Command registry and dispatcher -/

/-- Static metadata of one registered command (the handler itself is modelled
separately where a claim needs it). -/
structure CommandDescriptor where
  name : String
  aliases : List String
  minArgs : Nat
  usage : String
  description : String
deriving DecidableEq

/-- The `search` descriptor. -/
def searchCmdD : CommandDescriptor :=
  ⟨"search", ["s"], 0, "search <query>", "Search Discogs for releases or artists"⟩

/-- The `tracks` descriptor. -/
def tracksCmdD : CommandDescriptor :=
  ⟨"tracks", ["t"], 1, "tracks [type] <id>", "Get tracklist from a master or release"⟩

/-- The `settings` descriptor. -/
def settingsCmdD : CommandDescriptor :=
  ⟨"settings", [], 0, "settings", "Show or change current session settings"⟩

/-- The `set` descriptor. -/
def setCmdD : CommandDescriptor :=
  ⟨"set", [], 0, "set [option] [value]",
    "Quick set a session option (or show settings if no args)"⟩

/-- The `clean` descriptor. -/
def cleanCmdD : CommandDescriptor :=
  ⟨"clean", [], 0, "clean", "Delete all files in the dist folder"⟩

/-- The `help` descriptor. -/
def helpCmdD : CommandDescriptor :=
  ⟨"help", ["?", "h"], 0, "help", "Show available commands"⟩

/-- The `exit` descriptor. -/
def exitCmdD : CommandDescriptor :=
  ⟨"exit", ["quit", "q"], 0, "exit", "Exit the session"⟩

/-- The command registry in source (insertion) order. -/
def commandRegistry : List CommandDescriptor :=
  [searchCmdD, tracksCmdD, settingsCmdD, setCmdD, cleanCmdD, helpCmdD, exitCmdD]

/-- The property names every JS object literal inherits from
`Object.prototype`; reading any of them on the registry object yields a
truthy value (a function, or the prototype object for the getter). -/
def objectPrototypeProps : List String :=
  ["constructor", "hasOwnProperty", "isPrototypeOf", "propertyIsEnumerable",
   "toLocaleString", "toString", "valueOf", "__proto__", "__defineGetter__",
   "__defineSetter__", "__lookupGetter__", "__lookupSetter__"]

/-- What `findCommand` can return: a registered descriptor (spread together
with its canonical name), the truthy non-descriptor object
`{ name: lower }` produced when `commands[lower]` hits an inherited
`Object.prototype` property (whose spread contributes no enumerable fields),
or the JS `null` not-found value. -/
inductive FindResult where
  | found (d : CommandDescriptor)
  | inherited (name : String)
  | notFound
deriving DecidableEq

/-- Lookup of an already lower-cased token. The source tests
`if (commands[lower])`, a plain-object property read: an own property (a
canonical name) matches first; otherwise an inherited `Object.prototype`
property is truthy and is returned as a non-descriptor object; only then
does the alias scan over the registry run, in insertion order. -/
def findCommandLower (lower : String) : FindResult :=
  match commandRegistry.find? (fun c => c.name = lower) with
  | some c => .found c
  | none =>
    if objectPrototypeProps.contains lower then .inherited lower
    else
      match commandRegistry.find? (fun c => c.aliases.contains lower) with
      | some c => .found c
      | none => .notFound

/-- Model of `findCommand(name)`: lower-case the token, then look it up. -/
def findCommand (nm : String) : FindResult :=
  findCommandLower (lowerStr nm)

/-- How one dispatch ended: blank input, unknown command, the missing-argument
gate, a handler invocation with the parsed arguments, or the TypeError the
dispatcher throws when the lookup returned an inherited non-descriptor
object (its `handler` field is undefined and calling it throws; the
exception propagates to the session loop). -/
inductive DispatchOutcome where
  | emptyInput
  | unknownCmd (c : String)
  | missingArgs (d : CommandDescriptor)
  | ran (d : CommandDescriptor) (args : List String)
  | threwTypeError (name : String)
deriving DecidableEq

/-- Model of `executeCommand(input)` up to handler invocation: tokenize,
return early on empty input, resolve the command, apply the
`cmd.minArgs && args.length < cmd.minArgs` gate, otherwise run the handler.
An inherited-property lookup result is truthy, so it passes the unknown
check; its undefined `minArgs` makes the gate falsy, and the call to its
undefined `handler` throws. -/
def executeCommand (line : String) : DispatchOutcome :=
  if (parseInput line).1 = "" then .emptyInput
  else
    match findCommand (parseInput line).1 with
    | .notFound => .unknownCmd (parseInput line).1
    | .inherited nm => .threwTypeError nm
    | .found d =>
      if d.minArgs ≠ 0 ∧ (parseInput line).2.length < d.minArgs then .missingArgs d
      else .ran d (parseInput line).2

/-- The messages the dispatcher prints for the two reject branches (error
line, then info line). -/
def dispatchMessages : DispatchOutcome → List String
  | .missingArgs d => ["Missing arguments", "Usage: " ++ d.usage]
  | .unknownCmd c => ["Unknown command: " ++ c, "Type help for available commands."]
  | _ => []

/-- The boolean that reaches the session loop, given the value each handler
would return; every reporting branch continues the session. The thrown
TypeError never returns a value from the dispatcher itself; the session
loop catches it, logs it, and continues the REPL, which the `true` here
records. -/
def dispatchContinue (r : DispatchOutcome)
    (handlerResult : CommandDescriptor → List String → Bool) : Bool :=
  match r with
  | .ran d args => handlerResult d args
  | _ => true

/-! ## ReccoBeats client (getTrackWithFeatures) -/

/-- The three shapes `makeRequest` can produce: the decoded JSON payload, an
error-marker object with a discriminator tag (and optional retry-after), or
`null` for generic failures. -/
inductive ApiResponse (α : Type) where
  | payload (a : α)
  | errorMarker (tag : String) (retryAfter : Option Int)
  | nullResult
deriving DecidableEq

/-- Track fields returned by `GET /track/:id`. -/
structure RBTrack where
  id : String
  trackTitle : String
  artists : List String
  durationMs : Nat
deriving DecidableEq

/-- Audio-features fields returned by `GET /track/:id/audio-features`
(numeric fields kept as scaled integers; no arithmetic is performed on them). -/
structure RBFeatures where
  id : String
  tempo : Int
  energy : Int
  danceability : Int
  valence : Int
deriving DecidableEq

/-- The combined object built by `getTrackWithFeatures`: the spread of the
track fields plus an `audioFeatures` field that is `none` exactly when the
features call failed (error marker) or returned `null`. -/
structure TrackWithFeatures where
  track : RBTrack
  audioFeatures : Option RBFeatures
deriving DecidableEq

/-- Model of `getTrackWithFeatures`: both underlying calls are awaited
jointly; a falsy or error-marked track result is returned as is, otherwise
the track fields are combined with `features?.error ? null : features`. -/
def getTrackWithFeatures (track : ApiResponse RBTrack)
    (features : ApiResponse RBFeatures) : ApiResponse TrackWithFeatures :=
  match track with
  | .nullResult => .nullResult
  | .errorMarker tag retry => .errorMarker tag retry
  | .payload t =>
    .payload
      { track := t,
        audioFeatures := match features with
          | .payload f => some f
          | _ => none }

/-! ## Tracks command (parseTracksArgs, handleTracks) -/

/-- Result of `parseTracksArgs`. -/
inductive TracksArgs where
  | ok (ty : String) (id : String)
  | err (msg : String) (hint : String)
deriving DecidableEq

/-- Model of `parseTracksArgs(args, defaultType)`: no arguments is an error;
a single argument, or a numeric-looking first argument, passes through as the
id with the default source type; otherwise the first argument must be
`master` or `release` (lower-cased) and the second is the id. -/
def parseTracksArgs (args : List String) (defaultType : String) : TracksArgs :=
  match args with
  | [] => .err "Please provide an ID" "Usage: tracks <id> or tracks <master|release> <id>"
  | a :: rest =>
    if rest.isEmpty || (jsParseInt a).isSome then .ok defaultType a
    else
      let ty := lowerStr a
      if ty = "master" || ty = "release" then .ok ty (rest.headD "")
      else .err ("Invalid type " ++ a) "Valid types: master, release"

/-- One track record of a Discogs tracklist. -/
structure DiscogsTrack where
  position : String
  title : String
  duration : String
deriving DecidableEq

/-- The parts of a Discogs master/release response that `handleTracks` reads. -/
structure DiscogsData where
  artists : List String
  title : String
  year : Option Int
  tracklist : List DiscogsTrack
deriving DecidableEq

/-- Observable effects of one `handleTracks` call: whether the invalid-ID
error was reported, whether a Discogs fetch was attempted, whether the
could-not-fetch warning fired, and which output files were written. -/
structure TracksEffects where
  invalidId : Bool
  fetchAttempted : Bool
  fetchFailed : Bool
  wroteTracksFile : Bool
  wroteJson : Bool
deriving DecidableEq

/-- Model of `handleTracks(db, type, id, flags)` with the Discogs API as an
oracle from source type and numeric id to an optional response: a
non-numeric id reports the invalid-ID error and returns before any fetch or
file write; a failed fetch warns and writes nothing; otherwise the tracks
file is written when the tracklist is nonempty and the JSON file always. -/
def handleTracks (tracksSearchType : String) (id : String)
    (fetch : String → Int → Option DiscogsData) : TracksEffects :=
  match jsParseInt id with
  | none => ⟨true, false, false, false, false⟩
  | some numId =>
    match fetch tracksSearchType numId with
    | none => ⟨false, true, true, false, false⟩
    | some data => ⟨false, true, false, !data.tracklist.isEmpty, true⟩

/-- Model of the `tracks` command handler: parse the arguments, report a
parse error (continuing the session) or run `handleTracks`; the handler
returns `true` (continue) on every path. -/
def tracksHandler (args : List String) (defaultType : String)
    (fetch : String → Int → Option DiscogsData) : Bool × Option TracksEffects :=
  match parseTracksArgs args defaultType with
  | .err _ _ => (true, none)
  | .ok ty id => (true, some (handleTracks ty id fetch))

/-! ## Shared helper lemmas -/

/-- List containment agrees with membership. -/
theorem contains_iff {α : Type} [BEq α] [LawfulBEq α] (l : List α) (a : α) :
    l.contains a = true ↔ a ∈ l :=
  List.elem_iff

/-- Unfolding of `handleSet` on a nonempty argument list. -/
theorem handleSet_cons (option : String) (rest : List String) (f : SessionFlags) :
    handleSet (option :: rest) f =
      if option = "" then ⟨f, .showed, false⟩
      else
        match keyOf (lowerStr option) with
        | none => ⟨f, .unknownOption, false⟩
        | some k =>
          match rest with
          | [] => ⟨f, .missingValue, false⟩
          | value :: _ =>
            if validateOf k (lowerStr value) then
              ⟨applyTransform k (lowerStr value) f, .updated k, true⟩
            else ⟨f, .rejected, false⟩ :=
  rfl

/-- `handleSet` with an option resolving to no schema key. -/
theorem handleSet_unknown (option : String) (rest : List String) (f : SessionFlags)
    (ho : option ≠ "") (hk : keyOf (lowerStr option) = none) :
    handleSet (option :: rest) f = ⟨f, .unknownOption, false⟩ := by
  rw [handleSet_cons, if_neg ho, hk]

/-- `handleSet` with a known option but no value. -/
theorem handleSet_missing (option : String) (f : SessionFlags) (k : SettingKey)
    (ho : option ≠ "") (hk : keyOf (lowerStr option) = some k) :
    handleSet [option] f = ⟨f, .missingValue, false⟩ := by
  rw [handleSet_cons, if_neg ho, hk]

/-- `handleSet` with a known option and a value: validate the lower-cased
value, then either transform-and-assign or reject. -/
theorem handleSet_update (option value : String) (f : SessionFlags) (k : SettingKey)
    (ho : option ≠ "") (hk : keyOf (lowerStr option) = some k) :
    handleSet [option, value] f =
      if validateOf k (lowerStr value) then
        ⟨applyTransform k (lowerStr value) f, .updated k, true⟩
      else ⟨f, .rejected, false⟩ := by
  rw [handleSet_cons, if_neg ho, hk]

/-! ## Claims -/

/-- C4: the combined track-plus-audio-features fetch is a deterministic total
combination: a successful track fetch with a failed features fetch (error
marker or null) yields the track fields plus a null `audioFeatures` marker,
and a failed track fetch is returned as the same failure value, never an
exception (the model is a total function over all response shapes). -/
theorem C4_combined_fetch_partial_failure :
    (∀ (t : RBTrack) (tag : String) (r : Option Int),
      getTrackWithFeatures (.payload t) (.errorMarker tag r) = .payload ⟨t, none⟩) ∧
    (∀ t : RBTrack, getTrackWithFeatures (.payload t) .nullResult = .payload ⟨t, none⟩) ∧
    (∀ (t : RBTrack) (f : RBFeatures),
      getTrackWithFeatures (.payload t) (.payload f) = .payload ⟨t, some f⟩) ∧
    (∀ (tag : String) (r : Option Int) (feats : ApiResponse RBFeatures),
      getTrackWithFeatures (.errorMarker tag r) feats = .errorMarker tag r) ∧
    (∀ feats : ApiResponse RBFeatures,
      getTrackWithFeatures .nullResult feats = .nullResult) :=
  ⟨fun _ _ _ => rfl, fun _ => rfl, fun _ _ => rfl, fun _ _ _ => rfl, fun _ => rfl⟩

/-- C5: the search-type setting accepts, through the lower-casing quick-set
path, exactly the unset tokens (empty, none, all) and the four real type
names, case-insensitively; the unset tokens transform to the unset value;
everything else is rejected. -/
theorem C5_search_type_tokens :
    (∀ raw : String, typeValidate (lowerStr raw) = true ↔
      (lowerStr raw = "" ∨ lowerStr raw = "none" ∨ lowerStr raw = "all" ∨
       lowerStr raw = "artist" ∨ lowerStr raw = "release" ∨
       lowerStr raw = "master" ∨ lowerStr raw = "label")) ∧
    typeTransform "none" = none ∧ typeTransform "all" = none ∧ typeTransform "" = none ∧
    (∀ (f : SessionFlags) (raw : String),
      (handleSet ["type", raw] f).outcome = .updated .type ↔
        typeValidate (lowerStr raw) = true) ∧
    (∀ f : SessionFlags, (handleSet ["type", "None"] f).flags.type = none) ∧
    typeValidate (lowerStr "ARTIST") = true ∧
    typeValidate (lowerStr "None") = true ∧
    typeValidate (lowerStr "vinyl") = false := by
  refine ⟨?_, rfl, rfl, rfl, ?_, fun f => rfl, by decide, by decide, by decide⟩
  · intro raw
    simp only [typeValidate, Bool.or_eq_true, decide_eq_true_eq, contains_iff,
      VALID_TYPES, List.mem_cons, List.not_mem_nil, or_false]
    tauto
  · intro f raw
    rw [handleSet_update "type" raw f .type (by decide) (by decide)]
    by_cases hv : validateOf .type (lowerStr raw) = true
    · rw [if_pos hv]
      have hv2 : typeValidate (lowerStr raw) = true := hv
      simp [hv2]
    · rw [if_neg hv]
      have hv2 : ¬ typeValidate (lowerStr raw) = true := hv
      simp [hv2]

/-- C6: the verbose validator accepts every input; the transform maps exactly
the string tokens on and true and the boolean true to the true-typed value
and everything else to false; hence a quick-set of verbose always succeeds,
`set verbose on` displays as on, and any value outside the true tokens
displays as off. -/
theorem C6_verbose_always_valid_transform :
    (∀ v : JsVal, verboseValidate v = true) ∧
    (∀ v : JsVal, verboseTransform v = true ↔
      (v = .str "on" ∨ v = .str "true" ∨ v = .jsBool true)) ∧
    (∀ (f : SessionFlags) (value : String),
      (handleSet ["verbose", value] f).outcome = .updated .verbose ∧
      (handleSet ["verbose", value] f).flags.verbose =
        verboseTransform (.str (lowerStr value))) ∧
    (∀ f : SessionFlags,
      verboseFormat (handleSet ["verbose", "on"] f).flags.verbose = "on") ∧
    (∀ f : SessionFlags,
      verboseFormat (handleSet ["verbose", "off"] f).flags.verbose = "off") ∧
    (∀ (f : SessionFlags) (value : String),
      lowerStr value ≠ "on" → lowerStr value ≠ "true" →
      verboseFormat (handleSet ["verbose", value] f).flags.verbose = "off") := by
  refine ⟨fun _ => rfl, ?_, fun f value => ⟨rfl, rfl⟩, fun f => rfl, fun f => rfl, ?_⟩
  · intro v
    cases v <;> simp [verboseTransform]
  · intro f value h1 h2
    have h3 : (handleSet ["verbose", value] f).flags.verbose =
        verboseTransform (.str (lowerStr value)) := rfl
    rw [h3]
    simp [verboseTransform, verboseFormat, h1, h2]

/-- C6 witness: a value that is neither on nor true displays as off. -/
theorem C6_verbose_witness :
    verboseFormat (handleSet ["verbose", "maybe"] defaultFlags).flags.verbose = "off" :=
  C6_verbose_always_valid_transform.2.2.2.2.2 defaultFlags "maybe" (by decide) (by decide)

/-- C2: a quick-set call with an unknown option, a missing value, or a value
failing the key validator leaves the Session Flags record exactly as it was
and performs no write to the persistent session log. -/
theorem C2_quick_set_rejection_side_effect_free :
    ∀ (f : SessionFlags) (option value : String),
      (∀ rest : List String, keyOf (lowerStr option) = none →
        (handleSet (option :: rest) f).flags = f ∧
        (handleSet (option :: rest) f).wroteLog = false) ∧
      ((handleSet [option] f).flags = f ∧
       (handleSet [option] f).wroteLog = false) ∧
      (∀ k : SettingKey, keyOf (lowerStr option) = some k →
        validateOf k (lowerStr value) = false →
        (handleSet [option, value] f).flags = f ∧
        (handleSet [option, value] f).wroteLog = false) := by
  intro f option value
  refine ⟨?_, ?_, ?_⟩
  · intro rest hk
    by_cases ho : option = ""
    · subst ho; rw [handleSet_cons]; simp
    · rw [handleSet_unknown option rest f ho hk]; exact ⟨rfl, rfl⟩
  · by_cases ho : option = ""
    · subst ho; rw [handleSet_cons]; simp
    · cases hk : keyOf (lowerStr option) with
      | none => rw [handleSet_unknown option [] f ho hk]; exact ⟨rfl, rfl⟩
      | some k => rw [handleSet_missing option f k ho hk]; exact ⟨rfl, rfl⟩
  · intro k hk hv
    by_cases ho : option = ""
    · exfalso
      subst ho
      have hnone : keyOf (lowerStr "") = none := rfl
      rw [hnone] at hk
      exact Option.noConfusion hk
    · rw [handleSet_update option value f k ho hk, if_neg (by simp [hv])]
      exact ⟨rfl, rfl⟩

/-- C2 witness: an unknown option and an invalid per-page value both leave
the default flags unchanged and write nothing to the log. -/
theorem C2_witness :
    ((handleSet ["bogus", "x"] defaultFlags).flags = defaultFlags ∧
     (handleSet ["bogus", "x"] defaultFlags).wroteLog = false) ∧
    ((handleSet ["per_page", "zero"] defaultFlags).flags = defaultFlags ∧
     (handleSet ["per_page", "zero"] defaultFlags).wroteLog = false) :=
  ⟨(C2_quick_set_rejection_side_effect_free defaultFlags "bogus" "x").1 ["x"] (by decide),
   (C2_quick_set_rejection_side_effect_free defaultFlags "per_page" "zero").2.2
     .per_page (by decide) (by decide)⟩

/-- C10: a non-numeric id makes the tracks handler report the invalid-ID
error and return normally, with no Discogs fetch and no file writes; a
single non-numeric token is passed through by the argument parser as the id
with the session default source type. -/
theorem C10_non_numeric_id_is_non_fatal :
    (∀ (ty id : String) (fetch : String → Int → Option DiscogsData),
      jsParseInt id = none →
      handleTracks ty id fetch = ⟨true, false, false, false, false⟩) ∧
    (∀ x d : String, parseTracksArgs [x] d = .ok d x) ∧
    (∀ (x d : String) (fetch : String → Int → Option DiscogsData),
      jsParseInt x = none →
      tracksHandler [x] d fetch = (true, some ⟨true, false, false, false, false⟩)) := by
  refine ⟨?_, fun x d => rfl, ?_⟩
  · intro ty id fetch h
    simp only [handleTracks, h]
  · intro x d fetch h
    have h2 : parseTracksArgs [x] d = .ok d x := rfl
    simp only [tracksHandler, h2, handleTracks, h]

/-- C10 witness: the concrete non-numeric id abc is rejected without fetch
or writes and the handler continues the session. -/
theorem C10_witness :
    tracksHandler ["abc"] "master" (fun _ _ => none) =
      (true, some ⟨true, false, false, false, false⟩) :=
  C10_non_numeric_id_is_non_fatal.2.2 "abc" "master" (fun _ _ => none) (by decide)

/-- Field-wise reading of `flagsValid`. -/
theorem flagsValid_iff (f : SessionFlags) :
    flagsValid f = true ↔
      (typeValueValid f.type = true ∧ perPageValueValid f.per_page = true ∧
       tracksTypeValidate f.tracks_type = true ∧
       tracksOutputValidate f.tracks_output = true) := by
  simp [flagsValid, Bool.and_eq_true, and_assoc]

/-- A transform-and-assign step for a validated lower-cased value keeps every
field of the flags record valid. -/
theorem applyTransform_valid (k : SettingKey) (val : String) (f : SessionFlags)
    (hf : flagsValid f = true) (hv : validateOf k val = true) :
    flagsValid (applyTransform k val f) = true := by
  obtain ⟨h1, h2, h3, h4⟩ := (flagsValid_iff f).mp hf
  cases k with
  | type =>
    simp only [applyTransform]
    rw [flagsValid_iff]
    refine ⟨?_, h2, h3, h4⟩
    show typeValueValid (typeTransform val) = true
    have hv2 : typeValidate val = true := hv
    simp only [typeValidate, Bool.or_eq_true, decide_eq_true_eq] at hv2
    rcases hv2 with ((h | h) | h) | h
    · subst h; decide
    · subst h; decide
    · subst h; decide
    · rw [contains_iff] at h
      fin_cases h <;> decide
  | per_page =>
    simp only [applyTransform]
    rw [flagsValid_iff]
    refine ⟨h1, ?_, h3, h4⟩
    show perPageValueValid (perPageTransform val) = true
    have hv2 : perPageValidate val = true := hv
    unfold perPageValidate at hv2
    unfold perPageValueValid perPageTransform
    exact hv2
  | tracks_type =>
    simp only [applyTransform]
    rw [flagsValid_iff]
    refine ⟨h1, h2, ?_, h4⟩
    show tracksTypeValidate (lowerStr val) = true
    have hv2 : tracksTypeValidate val = true := hv
    rw [tracksTypeValidate, contains_iff] at hv2
    fin_cases hv2 <;> decide
  | tracks_output =>
    simp only [applyTransform]
    rw [flagsValid_iff]
    refine ⟨h1, h2, h3, ?_⟩
    show tracksOutputValidate (lowerStr val) = true
    have hv2 : tracksOutputValidate val = true := hv
    rw [tracksOutputValidate, contains_iff] at hv2
    fin_cases hv2 <;> decide
  | verbose =>
    simp only [applyTransform]
    rw [flagsValid_iff]
    exact ⟨h1, h2, h3, h4⟩

/-- C1: starting from a flags record whose fields all pass their validators,
any quick-set call and any completed interactive-menu interaction (whose
committed value satisfies the inquirer select/validate contract) leaves
every field passing its own validator; raw input is transformed before
assignment and invalid raw input never reaches the record. -/
theorem C1_settings_mutations_preserve_validity :
    ∀ f : SessionFlags, flagsValid f = true →
      (∀ args : List String, flagsValid (handleSet args f).flags = true) ∧
      (∀ c : MenuChoice, menuChoiceOk c = true →
        flagsValid (handleSettingsModel c f) = true) := by
  intro f hf
  constructor
  · intro args
    cases args with
    | nil => exact hf
    | cons option rest =>
      rw [handleSet_cons]
      by_cases ho : option = ""
      · rw [if_pos ho]; exact hf
      · rw [if_neg ho]
        cases hk : keyOf (lowerStr option) with
        | none => exact hf
        | some k =>
          cases rest with
          | nil => exact hf
          | cons value more =>
            by_cases hv : validateOf k (lowerStr value) = true
            · simpa [hv] using applyTransform_valid k (lowerStr value) f hf hv
            · simpa [hv] using hf
  · intro c hc
    obtain ⟨h1, h2, h3, h4⟩ := (flagsValid_iff f).mp hf
    cases c with
    | chooseType v =>
      simp only [handleSettingsModel]
      rw [flagsValid_iff]
      refine ⟨?_, h2, h3, h4⟩
      show typeValueValid v = true
      have hc2 : typeChoices.contains v = true := hc
      rw [contains_iff] at hc2
      fin_cases hc2 <;> decide
    | enterPerPage raw =>
      simp only [handleSettingsModel]
      rw [flagsValid_iff]
      refine ⟨h1, ?_, h3, h4⟩
      show perPageValueValid (perPageTransform raw) = true
      have hv2 : perPageValidate raw = true := hc
      unfold perPageValidate at hv2
      unfold perPageValueValid perPageTransform
      exact hv2
    | chooseTracksType v =>
      simp only [handleSettingsModel]
      rw [flagsValid_iff]
      refine ⟨h1, h2, ?_, h4⟩
      show tracksTypeValidate v = true
      have hc2 : tracksTypeChoices.contains v = true := hc
      rw [contains_iff] at hc2
      fin_cases hc2 <;> decide
    | chooseTracksOutput v =>
      simp only [handleSettingsModel]
      rw [flagsValid_iff]
      refine ⟨h1, h2, h3, ?_⟩
      show tracksOutputValidate v = true
      have hc2 : tracksOutputChoices.contains v = true := hc
      rw [contains_iff] at hc2
      fin_cases hc2 <;> decide
    | chooseVerbose v =>
      simp only [handleSettingsModel]
      rw [flagsValid_iff]
      exact ⟨h1, h2, h3, h4⟩

/-- C1 witness: the default flags are valid and stay valid across a concrete
quick-set and a concrete menu interaction. -/
theorem C1_witness :
    flagsValid (handleSet ["per_page", "7"] defaultFlags).flags = true ∧
    flagsValid (handleSettingsModel (.enterPerPage "9") defaultFlags) = true :=
  ⟨(C1_settings_mutations_preserve_validity defaultFlags (by decide)).1 ["per_page", "7"],
   (C1_settings_mutations_preserve_validity defaultFlags (by decide)).2
     (.enterPerPage "9") (by decide)⟩

/-! ## Decimal rendering and parsing lemmas for the per-page round trip -/

/-- The data of a string built from a character list is that list. -/
theorem mk_data (l : List Char) : (⟨l⟩ : String).data = l :=
  rfl

/-- `findCommand` returns the not-found value exactly when the lower-cased
token is neither a canonical name, nor an inherited prototype property
name, nor an alias of any registered command. -/
theorem findCommand_notFound_iff (s : String) :
    findCommand s = .notFound ↔
      (lowerStr s ∉ objectPrototypeProps ∧
       ∀ d ∈ commandRegistry, lowerStr s ≠ d.name ∧ lowerStr s ∉ d.aliases) := by
  unfold findCommand findCommandLower
  constructor
  · intro h
    cases h1 : commandRegistry.find? (fun c => c.name = lowerStr s) with
    | some c => rw [h1] at h; simp at h
    | none =>
      rw [h1] at h
      by_cases hp : objectPrototypeProps.contains (lowerStr s) = true
      · rw [if_pos hp] at h; simp at h
      · rw [if_neg hp] at h
        have h2 : commandRegistry.find?
            (fun c => c.aliases.contains (lowerStr s)) = none := by
          cases h3 : commandRegistry.find?
              (fun c => c.aliases.contains (lowerStr s)) with
          | some c => rw [h3] at h; simp at h
          | none => rfl
        rw [List.find?_eq_none] at h1 h2
        refine ⟨fun hm => hp ((contains_iff _ _).mpr hm), ?_⟩
        intro d hd
        have hn := h1 d hd
        have ha := h2 d hd
        simp only [decide_eq_true_eq] at hn
        exact ⟨fun he => hn he.symm, fun hmem => ha ((contains_iff _ _).mpr hmem)⟩
  · rintro ⟨hp, hall⟩
    cases h1 : commandRegistry.find? (fun c => c.name = lowerStr s) with
    | some c =>
      exfalso
      have hmem := List.mem_of_find?_eq_some h1
      have hpp := List.find?_some h1
      simp only [decide_eq_true_eq] at hpp
      exact (hall c hmem).1 hpp.symm
    | none =>
      have h2m : List.find?
          (fun c => decide (lowerStr s ∈ c.aliases)) commandRegistry = none := by
        rw [List.find?_eq_none]
        intro d hd hc
        exact (hall d hd).2 (by simpa using hc)
      simp [hp, h2m]

/-- C8 counterexample: the token constructor matches no canonical name and
no alias, yet the lookup does not return the not-found value: the
prototype-chain read `commands.constructor` is truthy, so `findCommand`
returns a non-descriptor object instead of null. -/
theorem C8_counterexample :
    (∀ d ∈ commandRegistry,
      lowerStr "constructor" ≠ d.name ∧ lowerStr "constructor" ∉ d.aliases) ∧
    findCommand "constructor" ≠ .notFound ∧
    findCommand "constructor" = .inherited "constructor" := by
  refine ⟨by decide, by decide, by decide⟩

/-- C8 amended: command lookup is case-insensitive: tokens with the same
lower-cased form resolve identically, every canonical name and every alias
resolves to its descriptor, a token matching no name, no alias, and no
inherited prototype property name resolves to the not-found value, a token
matching an inherited prototype property name resolves to the truthy
non-descriptor object instead, and the upper- and mixed-case variants of
search resolve to the search descriptor. -/
theorem C8_find_command_case_insensitive :
    (∀ s t : String, lowerStr s = lowerStr t → findCommand s = findCommand t) ∧
    (∀ d ∈ commandRegistry,
      findCommand d.name = .found d ∧ ∀ a ∈ d.aliases, findCommand a = .found d) ∧
    (∀ s : String, findCommand s = .notFound ↔
      (lowerStr s ∉ objectPrototypeProps ∧
       ∀ d ∈ commandRegistry, lowerStr s ≠ d.name ∧ lowerStr s ∉ d.aliases)) ∧
    (∀ s : String, lowerStr s ∈ objectPrototypeProps →
      findCommand s = .inherited (lowerStr s)) ∧
    findCommand "SEARCH" = .found searchCmdD ∧
    findCommand "SeArCh" = .found searchCmdD := by
  refine ⟨?_, by decide, findCommand_notFound_iff, ?_, by decide, by decide⟩
  · intro s t h
    unfold findCommand
    rw [h]
  · intro s hmem
    have hfc : findCommand s = findCommandLower (lowerStr s) := rfl
    rw [hfc]
    simp only [objectPrototypeProps, List.mem_cons, List.not_mem_nil, or_false] at hmem
    rcases hmem with h | h | h | h | h | h | h | h | h | h | h | h <;> rw [h] <;> decide

/-- C8 witness: the upper-case variant resolves like the canonical form, the
tracks descriptor is found under its name and its alias, and the token
constructor resolves to the inherited non-descriptor object. -/
theorem C8_witness :
    findCommand "SEARCH" = findCommand "search" ∧
    (findCommand "tracks" = .found tracksCmdD ∧
     ∀ a ∈ tracksCmdD.aliases, findCommand a = .found tracksCmdD) ∧
    findCommand "Constructor" = .inherited (lowerStr "Constructor") :=
  ⟨C8_find_command_case_insensitive.1 "SEARCH" "search" (by decide),
   C8_find_command_case_insensitive.2.1 tracksCmdD (by decide),
   C8_find_command_case_insensitive.2.2.2.1 "Constructor" (by decide)⟩

/-- C9: when a line resolves to a descriptor but supplies fewer arguments
than its minimum, the dispatcher reports the missing-arguments error with
that descriptor usage string, does not invoke the handler, and returns the
continue value true; in particular the bare line tracks (minimum one
argument). -/
theorem C9_missing_argument_gate :
    (∀ (line : String) (d : CommandDescriptor),
      findCommand (parseInput line).1 = .found d →
      (parseInput line).2.length < d.minArgs →
      executeCommand line = .missingArgs d ∧
      dispatchMessages (executeCommand line) =
        ["Missing arguments", "Usage: " ++ d.usage] ∧
      ∀ h : CommandDescriptor → List String → Bool,
        dispatchContinue (executeCommand line) h = true) ∧
    executeCommand "tracks" = .missingArgs tracksCmdD ∧
    dispatchMessages (executeCommand "tracks") =
      ["Missing arguments", "Usage: tracks [type] <id>"] ∧
    ∀ h : CommandDescriptor → List String → Bool,
      dispatchContinue (executeCommand "tracks") h = true := by
  have main : ∀ (line : String) (d : CommandDescriptor),
      findCommand (parseInput line).1 = .found d →
      (parseInput line).2.length < d.minArgs →
      executeCommand line = .missingArgs d := by
    intro line d hf hlen
    have hne : ¬ (parseInput line).1 = "" := by
      intro h
      have h0 : findCommand "" = .notFound := by decide
      rw [h, h0] at hf
      exact FindResult.noConfusion hf
    unfold executeCommand
    rw [if_neg hne, hf]
    show (if d.minArgs ≠ 0 ∧ (parseInput line).2.length < d.minArgs then
        DispatchOutcome.missingArgs d
      else DispatchOutcome.ran d (parseInput line).2) = DispatchOutcome.missingArgs d
    rw [if_pos ⟨by omega, hlen⟩]
  have htracks : executeCommand "tracks" = .missingArgs tracksCmdD := by decide
  refine ⟨?_, htracks, by decide, fun h => by rw [htracks]; rfl⟩
  intro line d hf hlen
  refine ⟨main line d hf hlen, ?_, ?_⟩
  · rw [main line d hf hlen]; rfl
  · intro h
    rw [main line d hf hlen]; rfl

/-- C9 witness: the concrete bare line tracks hits the gate with the tracks
descriptor, its usage string, and the continue value. -/
theorem C9_witness :
    executeCommand "tracks" = .missingArgs tracksCmdD ∧
    dispatchMessages (executeCommand "tracks") =
      ["Missing arguments", "Usage: " ++ tracksCmdD.usage] ∧
    ∀ h : CommandDescriptor → List String → Bool,
      dispatchContinue (executeCommand "tracks") h = true :=
  C9_missing_argument_gate.1 "tracks" tracksCmdD (by decide) (by decide)

/-! ## Tokenizer lemmas -/

/-- Splitting an append at the first element failing the predicate. -/
theorem span_append {α : Type} {p : α → Bool} :
    ∀ t tail : List α, (∀ c ∈ t, p c = true) →
      (∀ c, tail.head? = some c → p c = false) →
      (t ++ tail).takeWhile p = t ∧ (t ++ tail).dropWhile p = tail := by
  intro t
  induction t with
  | nil =>
    intro tail _ hhead
    cases tail with
    | nil => exact ⟨rfl, rfl⟩
    | cons a m =>
      have ha := hhead a rfl
      constructor
      · rw [List.nil_append, List.takeWhile_cons, if_neg (by simp [ha])]
      · rw [List.nil_append, List.dropWhile_cons, if_neg (by simp [ha])]
  | cons a t ih =>
    intro tail hall hhead
    have ha := hall a (List.mem_cons_self a t)
    obtain ⟨h1, h2⟩ := ih tail (fun c hc => hall c (List.mem_cons_of_mem a hc)) hhead
    constructor
    · rw [List.cons_append, List.takeWhile_cons, if_pos ha, h1]
    · rw [List.cons_append, List.dropWhile_cons, if_pos ha, h2]

/-- The head that survives `dropWhile` fails the predicate. -/
theorem dropWhile_head_not {p : Char → Bool} :
    ∀ l : List Char, ∀ c, (l.dropWhile p).head? = some c → p c = false := by
  intro l
  induction l with
  | nil =>
    intro c hc
    simp at hc
  | cons a m ih =>
    intro c hc
    rw [List.dropWhile_cons] at hc
    by_cases hp : p a = true
    · rw [if_pos hp] at hc
      exact ih c hc
    · rw [if_neg hp] at hc
      injection hc with hc
      subst hc
      exact Bool.eq_false_iff.mpr hp

/-- A list whose head fails the predicate is untouched by `dropWhile`. -/
theorem dropWhile_of_head {p : Char → Bool} (l : List Char)
    (h : ∀ c, l.head? = some c → p c = false) : l.dropWhile p = l := by
  cases l with
  | nil => rfl
  | cons a m => rw [List.dropWhile_cons, if_neg (by simp [h a rfl])]

/-- Trimming is the identity on input with no surrounding whitespace. -/
theorem trimChars_eq_self (cs : List Char)
    (hh : ∀ c, cs.head? = some c → wsChar c = false)
    (hl : ∀ c, cs.getLast? = some c → wsChar c = false) : trimChars cs = cs := by
  unfold trimChars
  rw [dropWhile_of_head cs hh,
    dropWhile_of_head cs.reverse (fun c hc => hl c (by rwa [List.head?_reverse] at hc))]
  exact List.reverse_reverse cs

/-- Trimming twice is trimming once. -/
theorem trimChars_idem (cs : List Char) : trimChars (trimChars cs) = trimChars cs := by
  have hhead : ∀ c, (trimChars cs).head? = some c → wsChar c = false := by
    intro c hc
    obtain ⟨pre, hpre⟩ := List.dropWhile_suffix (l := (cs.dropWhile wsChar).reverse) wsChar
    have hA : cs.dropWhile wsChar = trimChars cs ++ pre.reverse := by
      have h2 := congrArg List.reverse hpre
      simpa [List.reverse_append, List.reverse_reverse, trimChars] using h2.symm
    cases ht : trimChars cs with
    | nil => rw [ht] at hc; simp at hc
    | cons a y =>
      rw [ht] at hc
      injection hc with hc
      apply dropWhile_head_not (p := wsChar) cs c
      rw [hA, ht, List.cons_append, List.head?_cons, hc]
  have hlast : ∀ c, (trimChars cs).getLast? = some c → wsChar c = false := by
    intro c hc
    rw [← List.head?_reverse] at hc
    have hrev : (trimChars cs).reverse = (cs.dropWhile wsChar).reverse.dropWhile wsChar := by
      unfold trimChars
      rw [List.reverse_reverse]
    rw [hrev] at hc
    exact dropWhile_head_not _ c hc
  exact trimChars_eq_self _ hhead hlast

/-- Structure of a well-formed token: a nonempty all-plain list or a quoted
span around quote-free content. -/
theorem wfTok_spec (t : List Char) (h : wfTok t = true) :
    (t ≠ [] ∧ ∀ c ∈ t, isTokChar c = true) ∨
    (∃ content : List Char, t = '"' :: (content ++ ['"']) ∧
      ∀ x ∈ content, ¬ x = '"') := by
  have h0 : isUnquotedTok t = true ∨ isQuotedTok t = true := by
    simpa [wfTok] using h
  rcases h0 with h1 | h2
  · left
    rw [isUnquotedTok, Bool.and_eq_true] at h1
    refine ⟨?_, ?_⟩
    · intro hx
      subst hx
      simp at h1
    · intro c hc
      exact List.all_eq_true.mp h1.2 c hc
  · right
    cases t with
    | nil => simp [isQuotedTok] at h2
    | cons c rest =>
      simp only [isQuotedTok, Bool.and_eq_true, decide_eq_true_eq] at h2
      obtain ⟨rfl, h3⟩ := h2
      cases hl : rest.getLast? with
      | none => rw [hl] at h3; simp at h3
      | some c2 =>
        rw [hl] at h3
        rw [Bool.and_eq_true, decide_eq_true_eq] at h3
        obtain ⟨hc2, h4⟩ := h3
        have hne : rest ≠ [] := by
          intro hx
          subst hx
          simp at hl
        have hsplit := List.dropLast_append_getLast hne
        have hlast2 : rest.getLast hne = c2 := by
          have := List.getLast?_eq_getLast rest hne
          rw [hl] at this
          injection this with h5
          exact h5.symm
        rw [hlast2, hc2] at hsplit
        refine ⟨rest.dropLast, ?_, ?_⟩
        · rw [hsplit]
        · intro x hx hxq
          have := List.all_eq_true.mp h4 x hx
          subst hxq
          simp at this

/-- A well-formed token is nonempty. -/
theorem wfTok_ne_nil (t : List Char) (h : wfTok t = true) : t ≠ [] := by
  rcases wfTok_spec t h with ⟨hne, _⟩ | ⟨content, rfl, _⟩
  · exact hne
  · simp

/-- A plain token character is not whitespace, not a quote, not a sign. -/
theorem isTokChar_facts (c : Char) (h : isTokChar c = true) :
    wsChar c = false ∧ ¬ c = '"' := by
  rw [isTokChar, Bool.and_eq_true] at h
  obtain ⟨h1, h2⟩ := h
  constructor
  · cases hw : wsChar c
    · rfl
    · rw [hw] at h1; simp at h1
  · intro hx
    subst hx
    simp at h2

/-- The head of a well-formed token is not whitespace. -/
theorem wfTok_head_not_ws (t : List Char) (h : wfTok t = true) :
    ∀ c, t.head? = some c → wsChar c = false := by
  intro c hc
  rcases wfTok_spec t h with ⟨hne, hall⟩ | ⟨content, rfl, _⟩
  · obtain ⟨a, t', rfl⟩ := List.exists_cons_of_ne_nil hne
    injection hc with hc
    rw [← hc]
    exact (isTokChar_facts a (hall a (List.mem_cons_self a t'))).1
  · injection hc with hc
    subst hc
    rfl

/-- The last character of a well-formed token is not whitespace. -/
theorem wfTok_last_not_ws (t : List Char) (h : wfTok t = true) :
    ∀ c, t.getLast? = some c → wsChar c = false := by
  intro c hc
  rcases wfTok_spec t h with ⟨hne, hall⟩ | ⟨content, rfl, _⟩
  · have hmem : c ∈ t := by
      have h2 := List.getLast?_eq_getLast t hne
      rw [hc] at h2
      injection h2 with h2
      rw [h2]
      exact List.getLast_mem hne
    exact (isTokChar_facts c (hall c hmem)).1
  · have h2 : ('"' :: (content ++ ['"'])).getLast? = some '"' := by
      rw [← List.cons_append, List.getLast?_concat]
    rw [h2] at hc
    injection hc with hc
    subst hc
    rfl

/-- The regex alternation matches exactly one well-formed token at the head
of a joined line. -/
theorem matchPiece_wf (t tail : List Char) (h : wfTok t = true) (ht : tailOk tail) :
    matchPiece (t ++ tail) = some (t, tail) := by
  have hstop : ∀ c, tail.head? = some c → isTokChar c = false := by
    rcases ht with rfl | ⟨m, rfl⟩
    · intro c hc; simp at hc
    · intro c hc
      injection hc with hc
      subst hc
      rfl
  rcases wfTok_spec t h with ⟨hne, hall⟩ | ⟨content, rfl, hqf⟩
  · obtain ⟨a, t', rfl⟩ := List.exists_cons_of_ne_nil hne
    have ha := hall a (List.mem_cons_self a t')
    obtain ⟨h1, h2⟩ := span_append (a :: t') tail hall hstop
    rw [List.cons_append, matchPiece, if_pos ha, ← List.cons_append, h1, h2]
  · have hmem : '"' ∈ content ++ '"' :: tail :=
      List.mem_append_right content (List.mem_cons_self '"' tail)
    have hcont : (content ++ '"' :: tail).contains '"' = true :=
      (contains_iff _ _).mpr hmem
    have hallq : ∀ x ∈ content, (fun x => x != '"') x = true := by
      intro x hx
      simp [hqf x hx]
    have hstopq : ∀ c, ('"' :: tail).head? = some c → (fun x => x != '"') c = false := by
      intro c hc
      injection hc with hc
      subst hc
      rfl
    obtain ⟨h1, h2⟩ := span_append content ('"' :: tail) hallq hstopq
    have hform : ('"' :: (content ++ ['"'])) ++ tail = '"' :: (content ++ '"' :: tail) := by
      simp
    rw [hform, matchPiece, if_neg (by decide), if_pos rfl, if_pos hcont, h1, h2]
    rfl

/-- Neither regex branch matches at the end of input or at a space. -/
theorem matchPiece_stop (tail : List Char) (ht : tailOk tail) :
    matchPiece tail = none := by
  rcases ht with rfl | ⟨m, rfl⟩
  · rfl
  · rw [matchPiece, if_neg (by decide), if_neg (by decide)]

/-- The greedy repetition consumes exactly one well-formed token before a
space or the end of input. -/
theorem pieces_wf (t tail : List Char) (h : wfTok t = true) (ht : tailOk tail) :
    ∀ fuel, 1 ≤ fuel → pieces fuel (t ++ tail) = (t, tail) := by
  intro fuel hf
  cases fuel with
  | zero => omega
  | succ f =>
    have hrest : pieces f tail = ([], tail) := by
      cases f with
      | zero => rfl
      | succ f2 => simp only [pieces, matchPiece_stop tail ht]
    simp only [pieces, matchPiece_wf t tail h ht, hrest, List.append_nil]

/-- The global scan yields nothing on empty input, with any fuel. -/
theorem scanAux_nil (fuel : Nat) : scanAux fuel [] = [] := by
  cases fuel <;> rfl

/-- A joined line of well-formed tokens is nonempty. -/
theorem joinTok_ne_nil (t : List Char) (rest : List (List Char))
    (h : wfTok t = true) : joinTok (t :: rest) ≠ [] := by
  cases rest with
  | nil => exact wfTok_ne_nil t h
  | cons u r =>
    simp only [joinTok]
    intro hx
    have h2 := List.append_eq_nil.mp hx
    simp at h2

/-- The head of a joined line is the head of its first token. -/
theorem joinTok_head_not_ws (t : List Char) (rest : List (List Char))
    (h : wfTok t = true) :
    ∀ c, (joinTok (t :: rest)).head? = some c → wsChar c = false := by
  intro c hc
  cases rest with
  | nil => exact wfTok_head_not_ws t h c hc
  | cons u r =>
    obtain ⟨a, t', rfl⟩ := List.exists_cons_of_ne_nil (wfTok_ne_nil t h)
    simp only [joinTok, List.cons_append, List.head?_cons] at hc
    injection hc with hc
    rw [← hc]
    exact wfTok_head_not_ws _ h a rfl

/-- The last character of a joined line of well-formed tokens is the last
character of its last token, hence not whitespace. -/
theorem joinTok_last_not_ws :
    ∀ toks : List (List Char), toks ≠ [] → (∀ u ∈ toks, wfTok u = true) →
      ∀ c, (joinTok toks).getLast? = some c → wsChar c = false := by
  intro toks
  induction toks with
  | nil => intro h; exact absurd rfl h
  | cons t rest ih =>
    intro _ hw c hc
    cases rest with
    | nil => exact wfTok_last_not_ws t (hw t (List.mem_cons_self t [])) c hc
    | cons u r =>
      have hJ : joinTok (u :: r) ≠ [] :=
        joinTok_ne_nil u r (hw u (List.mem_cons_of_mem t (List.mem_cons_self u r)))
      simp only [joinTok] at hc
      rw [List.getLast?_append] at hc
      cases hx : (joinTok (u :: r)).getLast? with
      | none =>
        exact absurd (List.getLast?_isSome.mpr hJ) (by simp [hx])
      | some d =>
        have hcons : (' ' :: joinTok (u :: r)).getLast? = some d := by
          have : ' ' :: joinTok (u :: r) = [' '] ++ joinTok (u :: r) := rfl
          rw [this, List.getLast?_append, hx]
          rfl
        rw [hcons] at hc
        simp only [Option.or_some] at hc
        injection hc with hc
        rw [← hc]
        exact ih (by simp) (fun x hx2 => hw x (List.mem_cons_of_mem t hx2)) d hx

/-- The global regex scan recovers the token list from a joined line. -/
theorem scanAux_join :
    ∀ toks : List (List Char), ∀ fuel : Nat,
      (∀ u ∈ toks, wfTok u = true) → (joinTok toks).length < fuel →
      scanAux fuel (joinTok toks) = toks := by
  intro toks
  induction toks with
  | nil =>
    intro fuel _ hf
    cases fuel with
    | zero => omega
    | succ f => rfl
  | cons t rest ih =>
    intro fuel hw hf
    have hwt := hw t (List.mem_cons_self t rest)
    cases rest with
    | nil =>
      simp only [joinTok] at hf ⊢
      cases fuel with
      | zero => omega
      | succ f =>
        obtain ⟨a, t', rfl⟩ := List.exists_cons_of_ne_nil (wfTok_ne_nil t hwt)
        have hmp : matchPiece (a :: t') = some (a :: t', []) := by
          have h2 := matchPiece_wf (a :: t') [] hwt (Or.inl rfl)
          rwa [List.append_nil] at h2
        have hpie : pieces (a :: t').length (a :: t') = (a :: t', []) := by
          have h2 := pieces_wf (a :: t') [] hwt (Or.inl rfl) (a :: t').length (by simp)
          rwa [List.append_nil] at h2
        simp only [scanAux, hmp, hpie, scanAux_nil]
    | cons u r =>
      simp only [joinTok] at hf ⊢
      have hwr : ∀ x ∈ u :: r, wfTok x = true :=
        fun x hx => hw x (List.mem_cons_of_mem t hx)
      have htail : tailOk (' ' :: joinTok (u :: r)) := Or.inr ⟨joinTok (u :: r), rfl⟩
      have hlt : t.length + (joinTok (u :: r)).length + 1 < fuel := by
        rw [List.length_append] at hf
        simpa using hf
      have ht1 : 1 ≤ t.length := by
        cases hx : t with
        | nil => exact absurd hx (wfTok_ne_nil t hwt)
        | cons a t' => simp
      cases fuel with
      | zero => omega
      | succ f =>
        obtain ⟨a, t', ha⟩ := List.exists_cons_of_ne_nil (wfTok_ne_nil t hwt)
        have hmp := matchPiece_wf t (' ' :: joinTok (u :: r)) hwt htail
        have hpie := pieces_wf t (' ' :: joinTok (u :: r)) hwt htail
          (t ++ ' ' :: joinTok (u :: r)).length (by rw [List.length_append]; omega)
        rw [ha, List.cons_append] at hmp hpie ⊢
        simp only [scanAux, hmp, hpie]
        have hstep : scanAux f (' ' :: joinTok (u :: r)) = u :: r := by
          cases f with
          | zero => omega
          | succ f2 =>
            simp only [scanAux, matchPiece_stop (' ' :: joinTok (u :: r)) htail]
            exact ih f2 hwr (by omega)
        rw [hstep]

/-- C7: the tokenizer first trims (trimming again changes nothing), yields
the empty command and no arguments on blank input, splits a line of
whitespace-separated plain or double-quoted tokens into the lower-cased
first token as the command and the quote-stripped rest as arguments, and
handles the two concrete quoted examples of the spec. -/
theorem C7_parse_input_tokenizer :
    (∀ s : String, parseInput (jsTrim s) = parseInput s) ∧
    (∀ s : String, jsTrim s = "" → parseInput s = ("", [])) ∧
    (∀ (t : List Char) (rest : List (List Char)), wfTok t = true →
      (∀ u ∈ rest, wfTok u = true) →
      parseInput ⟨joinTok (t :: rest)⟩ =
        (lowerStr ⟨t⟩, rest.map (fun u => (⟨stripQuotes u⟩ : String)))) ∧
    parseInput "search \"Daft Punk\"" = ("search", ["Daft Punk"]) ∧
    parseInput "search \"Artist - Album (2020)\"" =
      ("search", ["Artist - Album (2020)"]) ∧
    parseInput "" = ("", []) ∧ parseInput "   " = ("", []) := by
  refine ⟨?_, ?_, ?_, by decide, by decide, by decide, by decide⟩
  · intro s
    unfold parseInput jsTrim
    rw [mk_data, trimChars_idem]
  · intro s h
    have h2 : trimChars s.data = [] := by
      have h3 : (⟨trimChars s.data⟩ : String) = ⟨[]⟩ := h
      simpa using congrArg String.data h3
    unfold parseInput
    rw [if_pos h2]
  · intro t rest hwt hw
    have hwall : ∀ u ∈ t :: rest, wfTok u = true := by
      intro u hu
      rcases List.mem_cons.mp hu with rfl | hu
      · exact hwt
      · exact hw u hu
    have hne := joinTok_ne_nil t rest hwt
    have htrim : trimChars (joinTok (t :: rest)) = joinTok (t :: rest) :=
      trimChars_eq_self _ (joinTok_head_not_ws t rest hwt)
        (joinTok_last_not_ws (t :: rest) (by simp) hwall)
    have hscan : scanTokens (joinTok (t :: rest)) = t :: rest := by
      unfold scanTokens
      exact scanAux_join (t :: rest) ((joinTok (t :: rest)).length + 1) hwall (by omega)
    unfold parseInput
    rw [mk_data, htrim, if_neg hne, hscan]
    rfl

/-- C7 witness: the joined well-formed tokens of the quoted example parse to
the lower-cased command and the quote-stripped argument. -/
theorem C7_witness :
    parseInput ⟨joinTok [['s', 'e', 'a', 'r', 'c', 'h'],
        ['"', 'D', 'a', 'f', 't', ' ', 'P', 'u', 'n', 'k', '"']]⟩ =
      (lowerStr ⟨['s', 'e', 'a', 'r', 'c', 'h']⟩,
       [['"', 'D', 'a', 'f', 't', ' ', 'P', 'u', 'n', 'k', '"']].map
         (fun u => (⟨stripQuotes u⟩ : String))) :=
  C7_parse_input_tokenizer.2.2.1 ['s', 'e', 'a', 'r', 'c', 'h']
    [['"', 'D', 'a', 'f', 't', ' ', 'P', 'u', 'n', 'k', '"']] (by decide) (by decide)

end Moozhak
